import Mathlib

set_option linter.unusedVariables false

/-! Verification model of the MP4 box reader (src/media/mp4/box_reader.h).
Byte buffers are modelled as lists of natural numbers (each byte taken
modulo 256 where it is read); machine integers are modelled as Nat with
explicit bounds. The template member functions ReadChildren,
TryReadChildren and ReadAllChildren are translated from the header source;
the out-of-line members (ReadHeader, StartTopLevelBox, ReadTopLevelBox,
ScanChildren), whose definitions live in box_reader.cc, a file of this
repository that is not under src/, are modelled from the spec and marked
as such in their doc comments. -/

/-- Four character code identifying the type of a box, modelled as Nat. -/
abbrev FourCC := Nat

/-- Upper bound on sane declared box sizes: the addressable range of the
signed 32 bit buffer sizes used by the reader interface. -/
def saneSizeMax : Nat := 2 ^ 31 - 1

/-- Modelled from the spec: the designated media-data tag that
ReadTopLevelBox recognises as soon as its header is present (the fourcc
table fourccs.h is not under src/). The value is the big-endian byte
interpretation of the four characters of the mdat tag. -/
def FOURCC_MDAT : FourCC := 0x6d646174

/-- Big-endian interpretation of a list of bytes. -/
def beVal (bs : List Nat) : Nat := bs.foldl (fun a b => a * 256 + b % 256) 0

/-- Result of header parsing: not enough data yet (non-error), a
stream-level error, or a sane header carrying the tag, the declared box
size and the number of header bytes consumed. -/
inductive HeaderResult where
  | incomplete : HeaderResult
  | malformed : HeaderResult
  | ok : FourCC → Nat → Nat → HeaderResult
deriving DecidableEq, Repr

/-- Modelled from the spec: BoxReader::ReadHeader, defined in box_reader.cc,
which is not under src/. Per spec section 4.1 the minimal fixed header is 8
bytes: a 4 byte big-endian declared size followed by a 4 byte tag; a buffer
shorter than that is incomplete, never malformed. A size field equal to the
extended-size sentinel 0xFFFFFFFF (spec section 8) requires 8 further bytes
holding the 64 bit size, else incomplete. A declared size smaller than the
number of header bytes actually consumed, or above the sane bound, is
malformed. -/
def ReadHeader (buf : List Nat) : HeaderResult :=
  if buf.length < 8 then .incomplete
  else
    let size32 := beVal (buf.take 4)
    let tag := beVal ((buf.drop 4).take 4)
    if size32 = 0xFFFFFFFF then
      if buf.length < 16 then .incomplete
      else
        let size := beVal ((buf.drop 8).take 8)
        if size < 16 ∨ saneSizeMax < size then .malformed
        else .ok tag size 16
    else
      if size32 < 8 ∨ saneSizeMax < size32 then .malformed
      else .ok tag size32 8

/-- A child box reader as constructed by the scanning code: the byte slice
handed to it (the remaining bytes of the parent), the cursor position just
past the child header, the declared child size bounding its extent, and the
child tag. -/
structure ChildReader where
  buf : List Nat
  pos : Nat
  size : Nat
  type : FourCC
deriving DecidableEq, Repr

/-- State of a BoxReader instance: the underlying buffer, the read cursor,
the declared box size bounding the extent, the box tag, the child multimap
(entries listed in discovery order; a std multimap keyed by fourcc keeps
entries of equal key in insertion order, which is the only order the
extraction code observes), and the one-way scanned latch. -/
structure BoxReader where
  buf : List Nat
  pos : Nat
  size : Nat
  type : FourCC
  children : List (FourCC × ChildReader)
  scanned : Bool
deriving DecidableEq, Repr

/-- Result of StartTopLevelBox: returns false with err unset (need more
data), false with err set (stream-level error), or true with the tag and
declared box size filled in. -/
inductive ProbeResult where
  | incomplete : ProbeResult
  | malformed : ProbeResult
  | ok : FourCC → Nat → ProbeResult
deriving DecidableEq, Repr

/-- Modelled from the spec: BoxReader::StartTopLevelBox, defined in
box_reader.cc, which is not under src/. Per spec section 4.1 it parses the
header from the candidate buffer and reports the tag and declared size on
success; success does not imply that the whole box body is in the buffer. -/
def StartTopLevelBox (buf : List Nat) : ProbeResult :=
  match ReadHeader buf with
  | .incomplete => .incomplete
  | .malformed => .malformed
  | .ok t sz _ => .ok t sz

/-- Result of ReadTopLevelBox: NULL with err unset (an intact complete box
is not yet available), NULL with err set (stream-level error), or a freshly
constructed reader positioned just past the header. -/
inductive TopLevelResult where
  | nullNeedData : TopLevelResult
  | nullError : TopLevelResult
  | reader : BoxReader → TopLevelResult
deriving DecidableEq, Repr

/-- Modelled from the spec: BoxReader::ReadTopLevelBox, defined in
box_reader.cc, which is not under src/. Per the header doc comment and spec
section 4.2: parses the header; on incomplete header returns NULL without a
stream error; on a malformed header returns NULL with the error set; for
the designated media-data tag a reader is returned as long as the header is
available, even if the declared body is not; for every other tag, if the
full declared extent is not in the buffer, returns NULL without a stream
error. -/
def ReadTopLevelBox (buf : List Nat) : TopLevelResult :=
  match ReadHeader buf with
  | .incomplete => .nullNeedData
  | .malformed => .nullError
  | .ok t sz hlen =>
    if t = FOURCC_MDAT then .reader ⟨buf, hlen, sz, t, [], false⟩
    else if buf.length < sz then .nullNeedData
    else .reader ⟨buf, hlen, sz, t, [], false⟩

/-- The buffer header declares a size strictly smaller than the number of
header bytes actually consumed: either the plain 4 byte size field is below
the 8 byte minimal header, or the extended 64 bit size field is below the
16 bytes consumed for the extended header. -/
def DeclaresSizeBelowHeader (buf : List Nat) : Prop :=
  (8 ≤ buf.length ∧ beVal (buf.take 4) < 8) ∨
  (16 ≤ buf.length ∧ beVal (buf.take 4) = 0xFFFFFFFF ∧
    beVal ((buf.drop 8).take 8) < 16)

/-- C7: for every input buffer shorter than the minimal fixed 8 byte header,
StartTopLevelBox reports incomplete (false with err unset), never
malformed. -/
theorem StartTopLevelBox_short_is_incomplete (buf : List Nat)
    (h : buf.length < 8) : StartTopLevelBox buf = .incomplete := by
  unfold StartTopLevelBox ReadHeader
  simp [h]

/-- Witness for C7 at a concrete 3 byte buffer. -/
theorem StartTopLevelBox_short_is_incomplete_witness :
    ([1, 2, 3] : List Nat).length < 8 ∧
      StartTopLevelBox [1, 2, 3] = .incomplete :=
  ⟨by decide, StartTopLevelBox_short_is_incomplete [1, 2, 3] (by decide)⟩

/-- C8: for every buffer whose header declares a size strictly smaller than
the header bytes actually consumed, probing reports malformed (never
incomplete, never success) and opening returns NULL with the stream error
set. -/
theorem declared_size_below_header_is_malformed (buf : List Nat)
    (h : DeclaresSizeBelowHeader buf) :
    StartTopLevelBox buf = .malformed ∧ ReadTopLevelBox buf = .nullError := by
  have hsane : (8 : Nat) ≤ saneSizeMax := by decide
  rcases h with ⟨hlen, hsz⟩ | ⟨hlen, hsent, hsz⟩
  · have hne : beVal (buf.take 4) ≠ 0xFFFFFFFF := by omega
    have hlt : ¬ buf.length < 8 := by omega
    constructor
    · unfold StartTopLevelBox ReadHeader
      simp only [hlt, if_false, hne, if_neg, if_false]
      simp [hsz]
    · unfold ReadTopLevelBox ReadHeader
      simp only [hlt, if_false, hne, if_neg, if_false]
      simp [hsz]
  · have hlt : ¬ buf.length < 8 := by omega
    have hlt16 : ¬ buf.length < 16 := by omega
    constructor
    · unfold StartTopLevelBox ReadHeader
      simp [hlt, hlt16, hsent, hsz]
    · unfold ReadTopLevelBox ReadHeader
      simp [hlt, hlt16, hsent, hsz]

/-- Witness for C8 at a concrete buffer declaring size 4 with an 8 byte
header. -/
theorem declared_size_below_header_is_malformed_witness :
    DeclaresSizeBelowHeader [0, 0, 0, 4, 97, 98, 99, 100] ∧
      StartTopLevelBox [0, 0, 0, 4, 97, 98, 99, 100] = .malformed ∧
      ReadTopLevelBox [0, 0, 0, 4, 97, 98, 99, 100] = .nullError :=
  ⟨Or.inl ⟨by decide, by decide⟩,
   declared_size_below_header_is_malformed [0, 0, 0, 4, 97, 98, 99, 100]
     (Or.inl ⟨by decide, by decide⟩)⟩

/-- C6: for every buffer whose sane header declares the media-data tag,
ReadTopLevelBox succeeds as soon as the complete header is present, with a
reader covering the declared extent, even if the body is not fully present;
for every other tag, whenever the full declared body is not present in the
buffer, it returns NULL without a stream error. -/
theorem ReadTopLevelBox_mdat_header_only (buf : List Nat) (t sz hlen : Nat)
    (h : ReadHeader buf = .ok t sz hlen) :
    (t = FOURCC_MDAT → ReadTopLevelBox buf = .reader ⟨buf, hlen, sz, t, [], false⟩) ∧
    (t ≠ FOURCC_MDAT → buf.length < sz → ReadTopLevelBox buf = .nullNeedData) := by
  constructor
  · intro ht
    unfold ReadTopLevelBox
    rw [h]
    simp [ht]
  · intro ht hshort
    unfold ReadTopLevelBox
    rw [h]
    simp [ht, hshort]

/-- Witness for C6: a media-data box with declared size 256 but only the 8
header bytes present is opened successfully; a box of another tag with the
same declared size and only the header present yields NULL with no error. -/
theorem ReadTopLevelBox_mdat_header_only_witness :
    ReadHeader [0, 0, 1, 0, 0x6d, 0x64, 0x61, 0x74] = .ok FOURCC_MDAT 256 8 ∧
    ReadTopLevelBox [0, 0, 1, 0, 0x6d, 0x64, 0x61, 0x74] =
      .reader ⟨[0, 0, 1, 0, 0x6d, 0x64, 0x61, 0x74], 8, 256, FOURCC_MDAT, [], false⟩ ∧
    ReadHeader [0, 0, 1, 0, 97, 98, 99, 100] = .ok 0x61626364 256 8 ∧
    ReadTopLevelBox [0, 0, 1, 0, 97, 98, 99, 100] = .nullNeedData := by
  refine ⟨by decide, ?_, by decide, ?_⟩
  · exact (ReadTopLevelBox_mdat_header_only
      [0, 0, 1, 0, 0x6d, 0x64, 0x61, 0x74] FOURCC_MDAT 256 8 (by decide)).1 rfl
  · exact (ReadTopLevelBox_mdat_header_only
      [0, 0, 1, 0, 97, 98, 99, 100] 0x61626364 256 8 (by decide)).2
      (by decide) (by decide)

/-- Outcome of a member call whose entry preconditions are guarded by debug
assertions: either the programming contract was violated (the assertion
fires, the call is rejected rather than producing a parse result), or the
call runs and yields a result. -/
inductive CallResult (α : Type) where
  | violation : CallResult α
  | res : α → CallResult α
deriving DecidableEq, Repr

/-- Result record of TryReadChildren and ReadChildren: the returned Bool,
the contents of the caller-supplied destination vector after the call, the
reader state after the call, and the list of child readers destroyed
(deleted) during the call, in deletion order. -/
structure TryOut (T : Type) where
  ok : Bool
  dest : List T
  state : BoxReader
  destroyed : List ChildReader
deriving DecidableEq, Repr

/-- The multimap entries matching a tag, in multimap order (equal-tag
entries keep insertion order): the equal range between lower_bound and
upper_bound of the tag. -/
def matchingChildren (tag : FourCC) (st : BoxReader) :
    List (FourCC × ChildReader) :=
  st.children.filter (fun e => e.1 == tag)

/-- The loop body of TryReadChildren: walk the matching child readers in
order, parsing each into the corresponding slot of the resized destination
vector and deleting the child reader after a successful parse. Returns
whether every parse succeeded, the final destination contents (slots past a
failing element keep their default-constructed value), and the child
readers deleted along the way. -/
def parseInto {T : Type} (parse : ChildReader → Option T) :
    List ChildReader → List T → Bool × List T × List ChildReader
  | [], slots => (true, slots, [])
  | r :: rs, slots =>
    match parse r with
    | none => (false, slots, [])
    | some t =>
      let rest := parseInto parse rs slots.tail
      (rest.1, t :: rest.2.1, r :: rest.2.2)

/-- BoxReader::TryReadChildren from the header source. The debug assertions
DCHECK(scanned_) and DCHECK(children->empty()) are modelled as contract
violations. The call resizes the destination to one element to query the
static BoxType of T (modelled by the boxType function applied to the
default-constructed element), resizes it to the number of matching entries,
parses each matching child in order (deleting each child reader after its
successful parse), and erases the whole matching range from the multimap
only after every parse succeeded. -/
def TryReadChildren {T : Type} (boxType : T → FourCC) (default : T)
    (parse : ChildReader → Option T) (dest0 : List T) (st : BoxReader) :
    CallResult (TryOut T) :=
  if !st.scanned then .violation
  else if !dest0.isEmpty then .violation
  else
    let tag := boxType default
    let matching := matchingChildren tag st
    let slots : List T := List.replicate matching.length default
    let r := parseInto parse (matching.map Prod.snd) slots
    if r.1 then
      .res ⟨true, r.2.1,
        { st with children := st.children.filter (fun e => !(e.1 == tag)) },
        r.2.2⟩
    else .res ⟨false, r.2.1, st, r.2.2⟩

/-- BoxReader::ReadChildren from the header source: delegates to
TryReadChildren and additionally requires the destination to be non-empty
afterwards (at least one child of the type present). -/
def ReadChildren {T : Type} (boxType : T → FourCC) (default : T)
    (parse : ChildReader → Option T) (dest0 : List T) (st : BoxReader) :
    CallResult (TryOut T) :=
  match TryReadChildren boxType default parse dest0 st with
  | .violation => .violation
  | .res o => .res ⟨o.ok && !o.dest.isEmpty, o.dest, o.state, o.destroyed⟩

/-- When every matching child parses successfully the extraction loop
succeeds, the destination slots hold exactly the parsed values in order,
and every matching child reader is deleted in order. -/
theorem parseInto_all_some {T : Type} (parse : ChildReader → Option T)
    (f : ChildReader → T) :
    ∀ (rs : List ChildReader) (slots : List T),
      (∀ r ∈ rs, parse r = some (f r)) → slots.length = rs.length →
      parseInto parse rs slots = (true, rs.map f, rs)
  | [], slots, h, hl => by
    have hnil : slots = [] := List.eq_nil_of_length_eq_zero (by simpa using hl)
    simp [parseInto, hnil]
  | r :: rs, slots, h, hl => by
    have hr : parse r = some (f r) := h r (by simp)
    have ih := parseInto_all_some parse f rs slots.tail
      (fun x hx => h x (by simp [hx]))
      (by simp only [List.length_tail]; simp at hl; omega)
    simp [parseInto, hr, ih]

/-- The extraction loop never changes the length of the resized destination
vector: starting from slots matching the number of children, the final
destination again has that length, whether or not every parse succeeded. -/
theorem parseInto_length {T : Type} (parse : ChildReader → Option T) :
    ∀ (rs : List ChildReader) (slots : List T), slots.length = rs.length →
      (parseInto parse rs slots).2.1.length = rs.length
  | [], slots, hl => by simpa [parseInto] using hl
  | r :: rs, slots, hl => by
    cases hp : parse r with
    | none => simpa [parseInto, hp] using hl
    | some t =>
      have ih := parseInto_length parse rs slots.tail
        (by simp only [List.length_tail]; simp at hl; omega)
      simp [parseInto, hp, ih]

/-- When the extraction loop reports success, the destination holds exactly
the successfully parsed values of the matching children, in order. -/
theorem parseInto_ok_dest {T : Type} (parse : ChildReader → Option T) :
    ∀ (rs : List ChildReader) (slots : List T), slots.length = rs.length →
      (parseInto parse rs slots).1 = true →
      (parseInto parse rs slots).2.1 = rs.filterMap parse
  | [], slots, hl, _ => by
    have hnil : slots = [] := List.eq_nil_of_length_eq_zero (by simpa using hl)
    simp [parseInto, hnil]
  | r :: rs, slots, hl, hok => by
    cases hp : parse r with
    | none => simp [parseInto, hp] at hok
    | some t =>
      have hok2 : (parseInto parse rs slots.tail).1 = true := by
        simp [parseInto, hp] at hok
        exact hok
      have ih := parseInto_ok_dest parse rs slots.tail
        (by simp only [List.length_tail]; simp at hl; omega) hok2
      simp [parseInto, hp, ih]

/-- C1: on a scanned reader whose multimap holds at least one entry for the
tag of T, when every matching child parses successfully, ReadChildren
succeeds, removes every matching entry from the multimap (destroying their
readers), and fills the destination with exactly the parsed elements of the
matching children in the order the scan discovered them. -/
theorem ReadChildren_reads_all_matches {T : Type} (boxType : T → FourCC)
    (default : T) (parse : ChildReader → Option T) (st : BoxReader)
    (f : ChildReader → T) (hs : st.scanned = true)
    (hn : matchingChildren (boxType default) st ≠ [])
    (hp : ∀ e ∈ matchingChildren (boxType default) st, parse e.2 = some (f e.2)) :
    ReadChildren boxType default parse [] st =
      .res ⟨true,
        (matchingChildren (boxType default) st).map (fun e => f e.2),
        { st with children :=
            st.children.filter (fun e => !(e.1 == boxType default)) },
        (matchingChildren (boxType default) st).map Prod.snd⟩ := by
  have hall : ∀ r ∈ (matchingChildren (boxType default) st).map Prod.snd,
      parse r = some (f r) := by
    intro r hr
    rcases List.mem_map.mp hr with ⟨e, he, rfl⟩
    exact hp e he
  have hpi := parseInto_all_some parse f
    ((matchingChildren (boxType default) st).map Prod.snd)
    (List.replicate (matchingChildren (boxType default) st).length default)
    hall (by simp)
  have hne : ((matchingChildren (boxType default) st).map (fun e => f e.2)).isEmpty = false := by
    cases hm : matchingChildren (boxType default) st with
    | nil => exact absurd hm hn
    | cons a l => simp
  unfold ReadChildren TryReadChildren
  simp only [hs, Bool.not_true, Bool.false_eq_true, if_false, List.isEmpty_nil,
    Bool.not_false, if_true]
  rw [hpi]
  simp [hne, List.map_map, Function.comp]
  exact hn

/-- Witness for C1: a scanned reader with two children of tag 7 and one of
tag 5; parsing returns the declared size of each child; ReadChildren yields
the two tag 7 children in discovery order and leaves only the tag 5
entry. -/
theorem ReadChildren_reads_all_matches_witness :
    ReadChildren (fun _ : Nat => 7) 0 (fun r => some r.size) []
        ⟨[], 0, 0, 0, [(7, ⟨[], 0, 1, 7⟩), (5, ⟨[], 0, 2, 5⟩), (7, ⟨[], 0, 3, 7⟩)], true⟩ =
      .res ⟨true, [1, 3],
        ⟨[], 0, 0, 0, [(5, ⟨[], 0, 2, 5⟩)], true⟩,
        [⟨[], 0, 1, 7⟩, ⟨[], 0, 3, 7⟩]⟩ := by
  have h := ReadChildren_reads_all_matches (fun _ : Nat => 7) 0
    (fun r => some r.size)
    ⟨[], 0, 0, 0, [(7, ⟨[], 0, 1, 7⟩), (5, ⟨[], 0, 2, 5⟩), (7, ⟨[], 0, 3, 7⟩)], true⟩
    (fun r => r.size) rfl (by decide) (by decide)
  exact h.trans (by decide)

/-- When the multimap holds no entry for a tag, erasing the matching range
leaves the child multimap unchanged. -/
theorem filter_non_matching_of_no_match (tag : FourCC) (st : BoxReader)
    (hm : matchingChildren tag st = []) :
    st.children.filter (fun e => !(e.1 == tag)) = st.children := by
  apply List.filter_eq_self.mpr
  intro a ha
  have hfa := List.filter_eq_nil_iff.mp hm a ha
  simp at hfa ⊢
  exact hfa

/-- C5: on a scanned reader, for a tag with zero matching entries,
TryReadChildren succeeds with an empty destination and an unchanged
multimap while ReadChildren fails; and for a tag with at least one matching
entry the two calls return identical results, so zero matches is the only
point (apart from nothing) where they differ. -/
theorem ReadChildren_vs_TryReadChildren {T : Type} (boxType : T → FourCC)
    (default : T) (parse : ChildReader → Option T) (st : BoxReader)
    (hs : st.scanned = true) :
    (matchingChildren (boxType default) st = [] →
      TryReadChildren boxType default parse [] st = .res ⟨true, [], st, []⟩ ∧
      ReadChildren boxType default parse [] st = .res ⟨false, [], st, []⟩) ∧
    (matchingChildren (boxType default) st ≠ [] →
      ReadChildren boxType default parse [] st =
        TryReadChildren boxType default parse [] st) := by
  constructor
  · intro hm
    have hfe := filter_non_matching_of_no_match (boxType default) st hm
    have htry : TryReadChildren boxType default parse [] st = .res ⟨true, [], st, []⟩ := by
      unfold TryReadChildren
      simp only [hs, Bool.not_true, Bool.false_eq_true, if_false,
        List.isEmpty_nil, Bool.not_false, hm]
      simp [parseInto, hfe]
      cases st
      simp_all
    refine ⟨htry, ?_⟩
    unfold ReadChildren
    rw [htry]
    simp
  · intro hm
    have hlen : (List.replicate (matchingChildren (boxType default) st).length
        default).length = ((matchingChildren (boxType default) st).map Prod.snd).length := by
      simp
    have hdl := parseInto_length parse
      ((matchingChildren (boxType default) st).map Prod.snd)
      (List.replicate (matchingChildren (boxType default) st).length default) hlen
    unfold ReadChildren TryReadChildren
    simp only [hs, Bool.not_true, Bool.false_eq_true, if_false,
      List.isEmpty_nil, Bool.not_false, if_true]
    cases hok : (parseInto parse
        ((matchingChildren (boxType default) st).map Prod.snd)
        (List.replicate (matchingChildren (boxType default) st).length default)).1 with
    | true =>
      have hne : ((parseInto parse
          ((matchingChildren (boxType default) st).map Prod.snd)
          (List.replicate (matchingChildren (boxType default) st).length
            default)).2.1).isEmpty = false := by
        rw [List.isEmpty_eq_false_iff_exists_mem]
        have hpos : 0 < (parseInto parse
            ((matchingChildren (boxType default) st).map Prod.snd)
            (List.replicate (matchingChildren (boxType default) st).length
              default)).2.1.length := by
          rw [hdl]
          simp only [List.length_map]
          cases hmm : matchingChildren (boxType default) st with
          | nil => exact absurd hmm hm
          | cons a l => simp
        exact List.exists_mem_of_length_pos hpos
      simp [hok, hne]
    | false => simp [hok]

/-- Witness for C5 at a concrete scanned reader holding one child of tag 9,
queried for tag 7 (zero matches) and for tag 9 (one match). -/
theorem ReadChildren_vs_TryReadChildren_witness :
    (TryReadChildren (fun _ : Nat => 7) 0 (fun r => some r.size) []
        ⟨[], 0, 0, 0, [(9, ⟨[], 0, 4, 9⟩)], true⟩ =
      .res ⟨true, [], ⟨[], 0, 0, 0, [(9, ⟨[], 0, 4, 9⟩)], true⟩, []⟩ ∧
     ReadChildren (fun _ : Nat => 7) 0 (fun r => some r.size) []
        ⟨[], 0, 0, 0, [(9, ⟨[], 0, 4, 9⟩)], true⟩ =
      .res ⟨false, [], ⟨[], 0, 0, 0, [(9, ⟨[], 0, 4, 9⟩)], true⟩, []⟩) ∧
    ReadChildren (fun _ : Nat => 9) 0 (fun r => some r.size) []
        ⟨[], 0, 0, 0, [(9, ⟨[], 0, 4, 9⟩)], true⟩ =
      TryReadChildren (fun _ : Nat => 9) 0 (fun r => some r.size) []
        ⟨[], 0, 0, 0, [(9, ⟨[], 0, 4, 9⟩)], true⟩ :=
  ⟨(ReadChildren_vs_TryReadChildren (fun _ : Nat => 7) 0 (fun r => some r.size)
      ⟨[], 0, 0, 0, [(9, ⟨[], 0, 4, 9⟩)], true⟩ rfl).1 (by decide),
   (ReadChildren_vs_TryReadChildren (fun _ : Nat => 9) 0 (fun r => some r.size)
      ⟨[], 0, 0, 0, [(9, ⟨[], 0, 4, 9⟩)], true⟩ rfl).2 (by decide)⟩

/-- C9: on a scanned reader, TryReadChildren requires the caller-supplied
destination to be empty at entry (a non-empty destination is a contract
violation); with an empty destination the call always leaves the
destination with exactly as many elements as there are matching multimap
entries (the vector is resized to the matching count, never appended after
pre-existing elements), and on success the destination holds exactly the
parsed matching children and the matching range is erased. -/
theorem TryReadChildren_destination_contract {T : Type} (boxType : T → FourCC)
    (default : T) (parse : ChildReader → Option T) (dest0 : List T)
    (st : BoxReader) (hs : st.scanned = true) :
    (dest0 ≠ [] → TryReadChildren boxType default parse dest0 st = .violation) ∧
    (∀ o, TryReadChildren boxType default parse [] st = .res o →
      o.dest.length = (matchingChildren (boxType default) st).length ∧
      (o.ok = true →
        o.dest = ((matchingChildren (boxType default) st).map Prod.snd).filterMap parse ∧
        o.state.children = st.children.filter (fun e => !(e.1 == boxType default)))) := by
  have hlen : (List.replicate (matchingChildren (boxType default) st).length
      default).length = ((matchingChildren (boxType default) st).map Prod.snd).length := by
    simp
  constructor
  · intro hd
    unfold TryReadChildren
    have hde : dest0.isEmpty = false := by
      cases dest0 with
      | nil => exact absurd rfl hd
      | cons a l => simp
    simp [hs, hde]
  · intro o ho
    unfold TryReadChildren at ho
    simp only [hs, Bool.not_true, Bool.false_eq_true, if_false,
      List.isEmpty_nil, Bool.not_false, if_true] at ho
    have hdl := parseInto_length parse
      ((matchingChildren (boxType default) st).map Prod.snd)
      (List.replicate (matchingChildren (boxType default) st).length default) hlen
    cases hok : (parseInto parse
        ((matchingChildren (boxType default) st).map Prod.snd)
        (List.replicate (matchingChildren (boxType default) st).length default)).1 with
    | true =>
      have hdest := parseInto_ok_dest parse
        ((matchingChildren (boxType default) st).map Prod.snd)
        (List.replicate (matchingChildren (boxType default) st).length default)
        hlen hok
      rw [if_pos hok] at ho
      cases ho
      refine ⟨by simpa using hdl, fun _ => ⟨hdest, rfl⟩⟩
    | false =>
      rw [if_neg (by simp [hok])] at ho
      cases ho
      exact ⟨by simpa using hdl, fun hko => by simp at hko⟩

/-- Witness for C9: a scanned reader with one child of tag 7; a call with a
non-empty destination is a contract violation, and applying the theorem at
the result of a legal call gives the resizing and exact-contents facts. -/
theorem TryReadChildren_destination_contract_witness :
    TryReadChildren (fun _ : Nat => 7) 0 (fun r => some r.size) [5]
        ⟨[], 0, 0, 0, [(7, ⟨[], 0, 4, 7⟩)], true⟩ = .violation ∧
    ([4] : List Nat).length =
      (matchingChildren 7 ⟨[], 0, 0, 0, [(7, ⟨[], 0, 4, 7⟩)], true⟩).length :=
  ⟨(TryReadChildren_destination_contract (fun _ : Nat => 7) 0
      (fun r => some r.size) [5] ⟨[], 0, 0, 0, [(7, ⟨[], 0, 4, 7⟩)], true⟩
      rfl).1 (by decide),
   ((TryReadChildren_destination_contract (fun _ : Nat => 7) 0
      (fun r => some r.size) [5] ⟨[], 0, 0, 0, [(7, ⟨[], 0, 4, 7⟩)], true⟩
      rfl).2 ⟨true, [4], ⟨[], 0, 0, 0, [], true⟩, [⟨[], 0, 4, 7⟩]⟩
      (by decide)).1⟩

/-- C3 evidence: the failure path of TryReadChildren leaves the multimap
partially consumed but unreported. On a scanned reader with two children of
tag 7 whose second child fails to parse, the call fails, the reader of the
first child has been destroyed (it is in the destroyed list), and yet the
first child entry still remains in the multimap, its entry not erased. -/
theorem TryReadChildren_failure_leaves_destroyed_entry :
    TryReadChildren (fun _ : Nat => 7) 0
        (fun r => if r.size == 1 then some 10 else none) []
        ⟨[], 0, 0, 0, [(7, ⟨[], 0, 1, 7⟩), (7, ⟨[], 0, 2, 7⟩)], true⟩ =
      .res ⟨false, [10, 0],
        ⟨[], 0, 0, 0, [(7, ⟨[], 0, 1, 7⟩), (7, ⟨[], 0, 2, 7⟩)], true⟩,
        [⟨[], 0, 1, 7⟩]⟩ ∧
    (⟨[], 0, 1, 7⟩ : ChildReader) ∈ [(⟨[], 0, 1, 7⟩ : ChildReader)] ∧
    ((7 : FourCC), (⟨[], 0, 1, 7⟩ : ChildReader)) ∈
      [((7 : FourCC), (⟨[], 0, 1, 7⟩ : ChildReader)),
       ((7 : FourCC), (⟨[], 0, 2, 7⟩ : ChildReader))] := by
  refine ⟨by decide, by decide, by decide⟩

/-- Any sane header satisfies the structural bounds enforced by header
parsing: at least 8 header bytes were consumed, the declared size is at
least the consumed header length, the consumed bytes fit in the buffer, and
the declared size respects the sane bound. -/
theorem ReadHeader_ok_bounds {buf : List Nat} {t sz hlen : Nat}
    (h : ReadHeader buf = .ok t sz hlen) :
    8 ≤ hlen ∧ hlen ≤ sz ∧ hlen ≤ buf.length ∧ sz ≤ saneSizeMax := by
  simp only [ReadHeader] at h
  by_cases h8 : buf.length < 8
  · rw [if_pos h8] at h; exact absurd h (by simp)
  rw [if_neg h8] at h
  by_cases hsent : beVal (buf.take 4) = 0xFFFFFFFF
  · rw [if_pos hsent] at h
    by_cases h16 : buf.length < 16
    · rw [if_pos h16] at h; exact absurd h (by simp)
    rw [if_neg h16] at h
    by_cases hbad : beVal ((buf.drop 8).take 8) < 16 ∨
        saneSizeMax < beVal ((buf.drop 8).take 8)
    · rw [if_pos hbad] at h; exact absurd h (by simp)
    rw [if_neg hbad] at h
    push_neg at hbad
    cases h
    exact ⟨by omega, by omega, by omega, by omega⟩
  · rw [if_neg hsent] at h
    by_cases hbad : beVal (buf.take 4) < 8 ∨ saneSizeMax < beVal (buf.take 4)
    · rw [if_pos hbad] at h; exact absurd h (by simp)
    rw [if_neg hbad] at h
    push_neg at hbad
    cases h
    exact ⟨by omega, by omega, by omega, by omega⟩

/-- The loop of BoxReader::ReadAllChildren from the header source: while the
cursor has not reached the declared extent, construct a child reader over
the remaining bytes, read its header (failing the whole call if the header
is incomplete or malformed), parse a fresh element of type T from the child
reader (failing the whole call if the parse fails), push the element onto
the destination, and skip the full declared child size (failing the whole
call if that would overrun the extent, with the element already pushed and
the cursor not advanced). Returns the success flag, the destination
contents, and the final cursor. -/
def ReadAllLoop {T : Type} (parse : ChildReader → Option T) (buf : List Nat)
    (size : Nat) (pos : Nat) (acc : List T) : Bool × List T × Nat :=
  if hlt : pos < size then
    match hh : ReadHeader ((buf.drop pos).take (size - pos)) with
    | .ok t sz hlen =>
      match parse ⟨(buf.drop pos).take (size - pos), hlen, sz, t⟩ with
      | some c =>
        if pos + sz ≤ size then
          ReadAllLoop parse buf size (pos + sz) (acc ++ [c])
        else (false, acc ++ [c], pos)
      | none => (false, acc, pos)
    | .incomplete => (false, acc, pos)
    | .malformed => (false, acc, pos)
  else (true, acc, pos)
termination_by size - pos
decreasing_by
  have hb := ReadHeader_ok_bounds hh
  omega

/-- Equation of ReadAllLoop at a cursor that has reached the extent. -/
theorem ReadAllLoop_stop {T : Type} (parse : ChildReader → Option T)
    (buf : List Nat) (size pos : Nat) (acc : List T) (h : ¬ pos < size) :
    ReadAllLoop parse buf size pos acc = (true, acc, pos) := by
  rw [ReadAllLoop]
  simp [h]

/-- Equation of ReadAllLoop when the next child header is incomplete. -/
theorem ReadAllLoop_incomplete {T : Type} (parse : ChildReader → Option T)
    (buf : List Nat) (size pos : Nat) (acc : List T) (h : pos < size)
    (hh : ReadHeader ((buf.drop pos).take (size - pos)) = .incomplete) :
    ReadAllLoop parse buf size pos acc = (false, acc, pos) := by
  rw [ReadAllLoop, dif_pos h]
  split
  · rename_i t sz hlen heq
    exact absurd (hh.symm.trans heq) (by simp)
  · rfl
  · rfl

/-- Equation of ReadAllLoop when the next child header is malformed. -/
theorem ReadAllLoop_malformed {T : Type} (parse : ChildReader → Option T)
    (buf : List Nat) (size pos : Nat) (acc : List T) (h : pos < size)
    (hh : ReadHeader ((buf.drop pos).take (size - pos)) = .malformed) :
    ReadAllLoop parse buf size pos acc = (false, acc, pos) := by
  rw [ReadAllLoop, dif_pos h]
  split
  · rename_i t sz hlen heq
    exact absurd (hh.symm.trans heq) (by simp)
  · rfl
  · rfl

/-- Equation of ReadAllLoop when the next child header is sane but the
parse of the child fails. -/
theorem ReadAllLoop_parse_fail {T : Type} (parse : ChildReader → Option T)
    (buf : List Nat) (size pos : Nat) (acc : List T) (t sz hlen : Nat)
    (h : pos < size)
    (hh : ReadHeader ((buf.drop pos).take (size - pos)) = .ok t sz hlen)
    (hp : parse ⟨(buf.drop pos).take (size - pos), hlen, sz, t⟩ = none) :
    ReadAllLoop parse buf size pos acc = (false, acc, pos) := by
  rw [ReadAllLoop, dif_pos h]
  split
  · rename_i t1 sz1 hlen1 heq
    have hinj := hh.symm.trans heq
    injection hinj with e1 e2 e3
    subst e1; subst e2; subst e3
    simp only [hp]
  · rename_i heq
    exact absurd (hh.symm.trans heq) (by simp)
  · rename_i heq
    exact absurd (hh.symm.trans heq) (by simp)

/-- Equation of ReadAllLoop when the parsed child declares a size that does
not fit in the remaining extent: the skip fails after the element was
already pushed, and the cursor does not advance. -/
theorem ReadAllLoop_skip_fail {T : Type} (parse : ChildReader → Option T)
    (buf : List Nat) (size pos : Nat) (acc : List T) (t sz hlen : Nat) (c : T)
    (h : pos < size)
    (hh : ReadHeader ((buf.drop pos).take (size - pos)) = .ok t sz hlen)
    (hp : parse ⟨(buf.drop pos).take (size - pos), hlen, sz, t⟩ = some c)
    (hfit : ¬ pos + sz ≤ size) :
    ReadAllLoop parse buf size pos acc = (false, acc ++ [c], pos) := by
  rw [ReadAllLoop, dif_pos h]
  split
  · rename_i t1 sz1 hlen1 heq
    have hinj := hh.symm.trans heq
    injection hinj with e1 e2 e3
    subst e1; subst e2; subst e3
    simp only [hp]
    rw [if_neg hfit]
  · rename_i heq
    exact absurd (hh.symm.trans heq) (by simp)
  · rename_i heq
    exact absurd (hh.symm.trans heq) (by simp)

/-- Equation of ReadAllLoop when one full child is consumed. -/
theorem ReadAllLoop_step {T : Type} (parse : ChildReader → Option T)
    (buf : List Nat) (size pos : Nat) (acc : List T) (t sz hlen : Nat) (c : T)
    (h : pos < size)
    (hh : ReadHeader ((buf.drop pos).take (size - pos)) = .ok t sz hlen)
    (hp : parse ⟨(buf.drop pos).take (size - pos), hlen, sz, t⟩ = some c)
    (hfit : pos + sz ≤ size) :
    ReadAllLoop parse buf size pos acc =
      ReadAllLoop parse buf size (pos + sz) (acc ++ [c]) := by
  rw [ReadAllLoop, dif_pos h]
  split
  · rename_i t1 sz1 hlen1 heq
    have hinj := hh.symm.trans heq
    injection hinj with e1 e2 e3
    subst e1; subst e2; subst e3
    simp only [hp]
    rw [if_pos hfit]
  · rename_i heq
    exact absurd (hh.symm.trans heq) (by simp)
  · rename_i heq
    exact absurd (hh.symm.trans heq) (by simp)

/-- BoxReader::ReadAllChildren from the header source. The debug assertion
DCHECK(!scanned_) is modelled as a contract violation; otherwise the
scanned latch is set (this happens at entry, before any child is parsed,
so the resulting reader is marked scanned whatever the loop outcome), the
consumption loop runs, and the call returns its success flag, the
destination contents and the reader with the final cursor. -/
def ReadAllChildren {T : Type} (parse : ChildReader → Option T)
    (dest0 : List T) (st : BoxReader) : CallResult (Bool × List T × BoxReader) :=
  if st.scanned then .violation
  else
    let r := ReadAllLoop parse st.buf st.size st.pos dest0
    .res (r.1, r.2.1, { st with pos := r.2.2, scanned := true })

/-- Modelled from the spec: the loop of BoxReader::ScanChildren, defined in
box_reader.cc, which is not under src/. Per spec section 4.3: starting at
the current cursor, repeatedly parse a nested header, construct a child
reader scoped to the declared child extent (its buffer is the remaining
parent bytes, its size field bounds it to the declared extent), append it
to the multimap keyed by the child tag (never overwriting same-tag
entries), and advance by the declared size; reaching the end of the body
exactly is success, a header failure or an overrunning child is failure. -/
def ScanLoop (buf : List Nat) (size : Nat) (pos : Nat)
    (acc : List (FourCC × ChildReader)) : Option (List (FourCC × ChildReader)) :=
  if hlt : pos < size then
    match hh : ReadHeader ((buf.drop pos).take (size - pos)) with
    | .ok t sz hlen =>
      if pos + sz ≤ size then
        ScanLoop buf size (pos + sz)
          (acc ++ [(t, ⟨(buf.drop pos).take (size - pos), hlen, sz, t⟩)])
      else none
    | .incomplete => none
    | .malformed => none
  else some acc
termination_by size - pos
decreasing_by
  have hb := ReadHeader_ok_bounds hh
  omega

/-- Equation of ScanLoop at a cursor that has reached the extent. -/
theorem ScanLoop_stop (buf : List Nat) (size pos : Nat)
    (acc : List (FourCC × ChildReader)) (h : ¬ pos < size) :
    ScanLoop buf size pos acc = some acc := by
  rw [ScanLoop]
  simp [h]

/-- Modelled from the spec: BoxReader::ScanChildren, defined in
box_reader.cc, which is not under src/. Per spec section 4.3: calling it on
an already scanned reader violates the programming contract (it is mutually
exclusive with ReadAllChildren and one-shot); otherwise the body is walked
from the cursor, and only on overall success is the multimap filled, the
cursor moved to the end of the extent and the scanned latch set. -/
def ScanChildren (st : BoxReader) : CallResult (Bool × BoxReader) :=
  if st.scanned then .violation
  else
    match ScanLoop st.buf st.size st.pos [] with
    | some cs =>
      .res (true, { st with children := cs, pos := st.size, scanned := true })
    | none => .res (false, st)

/-- Spec-side characterisation of a well-formed homogeneous body, following
the words of the claim: the byte region is an exact concatenation of zero
or more child units, each opening with a sane header that fits in the
remaining bytes, each accepted by the parse routine of the element type,
listed in body order. -/
inductive GoodBody {T : Type} (parse : ChildReader → Option T) :
    List Nat → List T → Prop where
  | nil : GoodBody parse [] []
  | cons {rest : List Nat} {t sz hlen : Nat} {c : T} {out : List T} :
      ReadHeader rest = .ok t sz hlen →
      parse ⟨rest, hlen, sz, t⟩ = some c →
      sz ≤ rest.length →
      GoodBody parse (rest.drop sz) out →
      GoodBody parse rest (c :: out)

/-- An empty body admits only the empty parse. -/
theorem GoodBody_nil_inv {T : Type} {parse : ChildReader → Option T}
    {out : List T} (h : GoodBody parse [] out) : out = [] := by
  cases h with
  | nil => rfl
  | cons hh hp hsz hgb => simp [ReadHeader] at hh

/-- Soundness of the consumption loop against the spec-side body shape: a
well-formed homogeneous body is consumed completely, the parsed elements
are appended in body order, and the cursor finishes exactly at the end of
the extent. -/
theorem ReadAllLoop_of_goodBody {T : Type} (parse : ChildReader → Option T)
    (buf : List Nat) (size : Nat) :
    ∀ (body : List Nat) (tail : List T), GoodBody parse body tail →
      ∀ (pos : Nat) (acc : List T), pos ≤ size → size ≤ buf.length →
        body = (buf.drop pos).take (size - pos) →
        ReadAllLoop parse buf size pos acc = (true, acc ++ tail, size) := by
  intro body tail hgb
  induction hgb with
  | nil =>
    intro pos acc hpos hsz hbody
    have hlen := congrArg List.length hbody
    simp only [List.length_nil, List.length_take, List.length_drop] at hlen
    have h0 : size - pos = 0 := by omega
    have hstop : ¬ pos < size := by omega
    rw [ReadAllLoop_stop parse buf size pos acc hstop]
    have hps : pos = size := by omega
    simp [hps]
  | cons hh hp hszle hgb2 ih =>
    rename_i rest t sz hlen c out
    intro pos acc hpos hsz hbody
    have hb := ReadHeader_ok_bounds hh
    have hrl : rest.length = size - pos := by
      rw [hbody]
      simp only [List.length_take, List.length_drop]
      omega
    have hlt : pos < size := by omega
    have hfit : pos + sz ≤ size := by omega
    have hstep := ReadAllLoop_step parse buf size pos acc t sz hlen c hlt
      (by rw [← hbody]; exact hh) (by rw [← hbody]; exact hp) hfit
    rw [hstep]
    have hnext : rest.drop sz = (buf.drop (pos + sz)).take (size - (pos + sz)) := by
      rw [hbody, List.drop_take, List.drop_drop]
      congr 1
      omega
    rw [ih (pos + sz) (acc ++ [c]) hfit hsz hnext]
    simp

/-- Completeness of the consumption loop against the spec-side body shape:
whenever the loop reports success, the remaining body slice was an exact
concatenation of well-formed parse-accepted children, the output is the
input destination followed by their parses in body order, and the cursor
finished exactly at the end of the extent. -/
theorem goodBody_of_ReadAllLoop {T : Type} (parse : ChildReader → Option T)
    (buf : List Nat) (size : Nat) (pos : Nat) (acc out : List T) (pos2 : Nat)
    (hpos : pos ≤ size) (hsz : size ≤ buf.length)
    (h : ReadAllLoop parse buf size pos acc = (true, out, pos2)) :
    ∃ tail, GoodBody parse ((buf.drop pos).take (size - pos)) tail ∧
      out = acc ++ tail ∧ pos2 = size := by
  by_cases hlt : pos < size
  · cases hh : ReadHeader ((buf.drop pos).take (size - pos)) with
    | incomplete =>
      rw [ReadAllLoop_incomplete parse buf size pos acc hlt hh] at h
      simp at h
    | malformed =>
      rw [ReadAllLoop_malformed parse buf size pos acc hlt hh] at h
      simp at h
    | ok t sz hlen =>
      cases hp : parse ⟨(buf.drop pos).take (size - pos), hlen, sz, t⟩ with
      | none =>
        rw [ReadAllLoop_parse_fail parse buf size pos acc t sz hlen hlt hh hp] at h
        simp at h
      | some c =>
        by_cases hfit : pos + sz ≤ size
        · have hb := ReadHeader_ok_bounds hh
          rw [ReadAllLoop_step parse buf size pos acc t sz hlen c hlt hh hp hfit] at h
          obtain ⟨tail, hgb, hout, hpos2⟩ :=
            goodBody_of_ReadAllLoop parse buf size (pos + sz) (acc ++ [c])
              out pos2 hfit hsz h
          refine ⟨c :: tail, ?_, by simp [hout], hpos2⟩
          refine GoodBody.cons hh hp ?_ ?_
          · have hbl : ((buf.drop pos).take (size - pos)).length = size - pos := by
              simp only [List.length_take, List.length_drop]
              omega
            omega
          · have hnext : ((buf.drop pos).take (size - pos)).drop sz =
                (buf.drop (pos + sz)).take (size - (pos + sz)) := by
              rw [List.drop_take, List.drop_drop]
              congr 1
              omega
            rw [hnext]
            exact hgb
        · rw [ReadAllLoop_skip_fail parse buf size pos acc t sz hlen c hlt hh hp hfit] at h
          simp at h
  · rw [ReadAllLoop_stop parse buf size pos acc hlt] at h
    have hout : acc = out ∧ pos = pos2 := by
      have h1 := congrArg Prod.fst h
      have h2 := congrArg (fun x => x.2.1) h
      have h3 := congrArg (fun x => x.2.2) h
      exact ⟨h2, h3⟩
    have h0 : size - pos = 0 := by omega
    refine ⟨[], ?_, by simp [hout.1], by omega⟩
    rw [h0, List.take_zero]
    exact GoodBody.nil
termination_by size - pos
decreasing_by omega

/-- The consumption loop only ever appends to the destination and only ever
moves the cursor forwards: whatever the outcome, the initial destination
contents are a prefix of the final contents and the cursor does not move
back. -/
theorem ReadAllLoop_extends {T : Type} (parse : ChildReader → Option T)
    (buf : List Nat) (size : Nat) (pos : Nat) (acc : List T)
    (res : Bool × List T × Nat) (h : ReadAllLoop parse buf size pos acc = res) :
    res.2.1.take acc.length = acc ∧ acc.length ≤ res.2.1.length ∧
      pos ≤ res.2.2 := by
  by_cases hlt : pos < size
  · cases hh : ReadHeader ((buf.drop pos).take (size - pos)) with
    | incomplete =>
      rw [ReadAllLoop_incomplete parse buf size pos acc hlt hh] at h
      rw [← h]
      simp [List.take_length]
    | malformed =>
      rw [ReadAllLoop_malformed parse buf size pos acc hlt hh] at h
      rw [← h]
      simp [List.take_length]
    | ok t sz hlen =>
      cases hp : parse ⟨(buf.drop pos).take (size - pos), hlen, sz, t⟩ with
      | none =>
        rw [ReadAllLoop_parse_fail parse buf size pos acc t sz hlen hlt hh hp] at h
        rw [← h]
        simp [List.take_length]
      | some c =>
        by_cases hfit : pos + sz ≤ size
        · have hb := ReadHeader_ok_bounds hh
          rw [ReadAllLoop_step parse buf size pos acc t sz hlen c hlt hh hp hfit] at h
          obtain ⟨ih1, ih2, ih3⟩ :=
            ReadAllLoop_extends parse buf size (pos + sz) (acc ++ [c]) res h
          refine ⟨?_, ?_, by omega⟩
          · have ht : res.2.1.take acc.length =
                (res.2.1.take ((acc ++ [c]).length)).take acc.length := by
              rw [List.take_take]
              congr 1
              simp
            rw [ht, ih1, List.take_left]
          · simp at ih2
            omega
        · rw [ReadAllLoop_skip_fail parse buf size pos acc t sz hlen c hlt hh hp hfit] at h
          rw [← h]
          exact ⟨List.take_left acc [c], by simp, by simp⟩
  · rw [ReadAllLoop_stop parse buf size pos acc hlt] at h
    rw [← h]
    simp [List.take_length]
termination_by size - pos
decreasing_by omega

/-- C2: on an unscanned reader whose extent lies inside its buffer,
ReadAllChildren succeeds exactly when the remaining body is an exact
concatenation of well-formed child units each accepted by the element
parse; on success the output lists their parses in body order and the
cursor reaches exactly the end of the body, and an empty remaining body
yields success with an empty output. -/
theorem ReadAllChildren_success_iff {T : Type} (parse : ChildReader → Option T)
    (st : BoxReader) (ok : Bool) (out : List T) (st2 : BoxReader)
    (hs : st.scanned = false) (hb : st.size ≤ st.buf.length)
    (hp : st.pos ≤ st.size)
    (h : ReadAllChildren parse [] st = .res (ok, out, st2)) :
    (ok = true ↔
      ∃ tail, GoodBody parse ((st.buf.drop st.pos).take (st.size - st.pos)) tail) ∧
    (ok = true →
      GoodBody parse ((st.buf.drop st.pos).take (st.size - st.pos)) out ∧
      st2.pos = st.size) ∧
    ((st.buf.drop st.pos).take (st.size - st.pos) = [] →
      ok = true ∧ out = []) := by
  rcases hr : ReadAllLoop parse st.buf st.size st.pos [] with ⟨b1, b2, b3⟩
  simp only [ReadAllChildren, hs, Bool.false_eq_true, if_false, hr] at h
  have hinj := h
  injection hinj with htup
  have hok : ok = b1 := (congrArg Prod.fst htup).symm
  have hout : out = b2 := (congrArg (fun x => x.2.1) htup).symm
  have hst2 : st2 = { st with pos := b3, scanned := true } :=
    (congrArg (fun x => x.2.2) htup).symm
  have hfwd : ok = true →
      GoodBody parse ((st.buf.drop st.pos).take (st.size - st.pos)) out ∧
      st2.pos = st.size := by
    intro hok1
    have hloop : ReadAllLoop parse st.buf st.size st.pos [] = (true, out, b3) := by
      rw [hr, ← hok, ← hout, hok1]
    obtain ⟨tail, hgb, htail, hsz2⟩ :=
      goodBody_of_ReadAllLoop parse st.buf st.size st.pos [] out b3 hp hb hloop
    have hto : out = tail := by simpa using htail
    refine ⟨hto ▸ hgb, ?_⟩
    rw [hst2]
    exact hsz2
  have hbwd : (∃ tail,
      GoodBody parse ((st.buf.drop st.pos).take (st.size - st.pos)) tail) →
      ok = true := by
    rintro ⟨tail, hgb⟩
    have hloop := ReadAllLoop_of_goodBody parse st.buf st.size
      ((st.buf.drop st.pos).take (st.size - st.pos)) tail hgb st.pos [] hp hb rfl
    rw [hok]
    rw [hr] at hloop
    exact (congrArg Prod.fst hloop)
  refine ⟨⟨fun hok1 => ⟨out, (hfwd hok1).1⟩, hbwd⟩, hfwd, ?_⟩
  intro hempty
  have hok1 : ok = true := hbwd ⟨[], hempty ▸ GoodBody.nil⟩
  have hgb := (hfwd hok1).1
  rw [hempty] at hgb
  exact ⟨hok1, GoodBody_nil_inv hgb⟩

/-- Witness for C2: a single box of declared size 8 (header only) fills the
whole 8 byte body, so ReadAllChildren succeeds with one element and the
body is a well-formed concatenation. -/
theorem ReadAllChildren_success_iff_witness :
    ReadAllChildren (fun r : ChildReader => some r.size) []
        ⟨[0, 0, 0, 8, 97, 98, 99, 100], 0, 8, 0, [], false⟩ =
      .res (true, [8], ⟨[0, 0, 0, 8, 97, 98, 99, 100], 8, 8, 0, [], true⟩) ∧
    GoodBody (fun r : ChildReader => some r.size)
      [0, 0, 0, 8, 97, 98, 99, 100] [8] := by
  have hgb : GoodBody (fun r : ChildReader => some r.size)
      [0, 0, 0, 8, 97, 98, 99, 100] [8] := by
    have hh : ReadHeader [0, 0, 0, 8, 97, 98, 99, 100] = .ok 0x61626364 8 8 := by
      decide
    refine GoodBody.cons hh rfl (by decide) ?_
    rw [(by decide : List.drop 8 [0, 0, 0, 8, 97, 98, 99, 100] = ([] : List Nat))]
    exact GoodBody.nil
  have hloop := ReadAllLoop_of_goodBody (fun r : ChildReader => some r.size)
    [0, 0, 0, 8, 97, 98, 99, 100] 8 [0, 0, 0, 8, 97, 98, 99, 100] [8] hgb 0 []
    (by decide) (by decide) (by decide)
  have h : ReadAllChildren (fun r : ChildReader => some r.size) []
      ⟨[0, 0, 0, 8, 97, 98, 99, 100], 0, 8, 0, [], false⟩ =
      .res (true, [8], ⟨[0, 0, 0, 8, 97, 98, 99, 100], 8, 8, 0, [], true⟩) := by
    simp [ReadAllChildren, hloop]
  refine ⟨h, ?_⟩
  have hiff := ReadAllChildren_success_iff (fun r : ChildReader => some r.size)
    ⟨[0, 0, 0, 8, 97, 98, 99, 100], 0, 8, 0, [], false⟩ true [8]
    ⟨[0, 0, 0, 8, 97, 98, 99, 100], 8, 8, 0, [], true⟩ rfl (by decide) (by decide) h
  exact (hiff.2.1 rfl).1

/-- The consumption loop fully consumes a sequence of children: starting at
a cursor, each step opens a sane child header at the cursor, parses the
child successfully, fits the declared child size in the extent, and
advances the cursor by exactly that declared size; the element list records
the parses of the consumed children in order, and the final cursor is the
position immediately after the last fully consumed child. -/
inductive ConsumesTo {T : Type} (parse : ChildReader → Option T)
    (buf : List Nat) (size : Nat) : Nat → List T → Nat → Prop where
  | refl (pos : Nat) : ConsumesTo parse buf size pos [] pos
  | step {pos : Nat} {t sz hlen : Nat} {c : T} {mid : List T} {pos2 : Nat} :
      pos < size →
      ReadHeader ((buf.drop pos).take (size - pos)) = .ok t sz hlen →
      parse ⟨(buf.drop pos).take (size - pos), hlen, sz, t⟩ = some c →
      pos + sz ≤ size →
      ConsumesTo parse buf size (pos + sz) mid pos2 →
      ConsumesTo parse buf size pos (c :: mid) pos2

/-- Full characterisation of a run of the consumption loop: the loop fully
consumes a sequence of children (their parses are mid, the cursor ends
immediately after the last of them), the destination is the initial
contents followed by mid and possibly one further element, that further
element exists exactly in the skip-failure case (the child at the final
cursor parsed but its declared size overruns the extent, so it was pushed
while the cursor stayed put), and success means nothing extra was pushed
and the cursor reached the end of the extent. -/
theorem ReadAllLoop_consumes {T : Type} (parse : ChildReader → Option T)
    (buf : List Nat) (size pos : Nat) (acc : List T) (ok : Bool)
    (out : List T) (pos2 : Nat)
    (h : ReadAllLoop parse buf size pos acc = (ok, out, pos2)) :
    ∃ mid extra, ConsumesTo parse buf size pos mid pos2 ∧
      out = acc ++ mid ++ extra ∧
      (extra = [] ∨ ∃ t sz hlen c,
        ReadHeader ((buf.drop pos2).take (size - pos2)) = .ok t sz hlen ∧
        parse ⟨(buf.drop pos2).take (size - pos2), hlen, sz, t⟩ = some c ∧
        extra = [c] ∧ ¬ pos2 + sz ≤ size) ∧
      (ok = true → extra = [] ∧ ¬ pos2 < size) := by
  by_cases hlt : pos < size
  · cases hh : ReadHeader ((buf.drop pos).take (size - pos)) with
    | incomplete =>
      rw [ReadAllLoop_incomplete parse buf size pos acc hlt hh] at h
      rw [Prod.mk.injEq, Prod.mk.injEq] at h
      obtain ⟨h1, h2, h3⟩ := h
      subst h1; subst h2; subst h3
      exact ⟨[], [], ConsumesTo.refl pos, by simp, Or.inl rfl, by simp⟩
    | malformed =>
      rw [ReadAllLoop_malformed parse buf size pos acc hlt hh] at h
      rw [Prod.mk.injEq, Prod.mk.injEq] at h
      obtain ⟨h1, h2, h3⟩ := h
      subst h1; subst h2; subst h3
      exact ⟨[], [], ConsumesTo.refl pos, by simp, Or.inl rfl, by simp⟩
    | ok t sz hlen =>
      cases hp : parse ⟨(buf.drop pos).take (size - pos), hlen, sz, t⟩ with
      | none =>
        rw [ReadAllLoop_parse_fail parse buf size pos acc t sz hlen hlt hh hp] at h
        rw [Prod.mk.injEq, Prod.mk.injEq] at h
        obtain ⟨h1, h2, h3⟩ := h
        subst h1; subst h2; subst h3
        exact ⟨[], [], ConsumesTo.refl pos, by simp, Or.inl rfl, by simp⟩
      | some c =>
        by_cases hfit : pos + sz ≤ size
        · have hb := ReadHeader_ok_bounds hh
          rw [ReadAllLoop_step parse buf size pos acc t sz hlen c hlt hh hp hfit] at h
          obtain ⟨mid, extra, hcons, hout, hstop, hoke⟩ :=
            ReadAllLoop_consumes parse buf size (pos + sz) (acc ++ [c])
              ok out pos2 h
          exact ⟨c :: mid, extra, ConsumesTo.step hlt hh hp hfit hcons,
            by simp [hout], hstop, hoke⟩
        · rw [ReadAllLoop_skip_fail parse buf size pos acc t sz hlen c hlt hh hp hfit] at h
          rw [Prod.mk.injEq, Prod.mk.injEq] at h
          obtain ⟨h1, h2, h3⟩ := h
          subst h1; subst h2; subst h3
          exact ⟨[], [c], ConsumesTo.refl pos, by simp,
            Or.inr ⟨t, sz, hlen, c, hh, hp, rfl, hfit⟩, by simp⟩
  · rw [ReadAllLoop_stop parse buf size pos acc hlt] at h
    rw [Prod.mk.injEq, Prod.mk.injEq] at h
    obtain ⟨h1, h2, h3⟩ := h
    subst h1; subst h2; subst h3
    exact ⟨[], [], ConsumesTo.refl pos, by simp, Or.inl rfl, fun _ => ⟨rfl, hlt⟩⟩
termination_by size - pos
decreasing_by omega

/-- C10: ReadAllChildren marks the reader scanned at entry, before parsing
any child, so whatever the outcome (including failure part-way through the
body) the resulting reader is scanned, while buffer, declared size and
multimap are untouched. The call fully consumes a sequence of children
whose parses mid follow the initial destination contents in the output, the
final cursor sits immediately after the last fully consumed child rather
than being rolled back, and the only possible further output element is a
child that parsed at that cursor but whose declared size overruns the
extent (pushed before the failing skip); success pushes nothing extra and
reaches the end of the extent. -/
theorem ReadAllChildren_latch_and_prefix {T : Type}
    (parse : ChildReader → Option T) (dest0 : List T) (st : BoxReader)
    (ok : Bool) (out : List T) (st2 : BoxReader) (hs : st.scanned = false)
    (h : ReadAllChildren parse dest0 st = .res (ok, out, st2)) :
    st2.scanned = true ∧ st2.buf = st.buf ∧ st2.size = st.size ∧
      st2.children = st.children ∧
      ∃ mid extra, ConsumesTo parse st.buf st.size st.pos mid st2.pos ∧
        out = dest0 ++ mid ++ extra ∧
        (extra = [] ∨ ∃ t sz hlen c,
          ReadHeader ((st.buf.drop st2.pos).take (st.size - st2.pos)) =
            .ok t sz hlen ∧
          parse ⟨(st.buf.drop st2.pos).take (st.size - st2.pos),
            hlen, sz, t⟩ = some c ∧
          extra = [c] ∧ ¬ st2.pos + sz ≤ st.size) ∧
        (ok = true → extra = [] ∧ ¬ st2.pos < st.size) := by
  rcases hr : ReadAllLoop parse st.buf st.size st.pos dest0 with ⟨b1, b2, b3⟩
  simp only [ReadAllChildren, hs, Bool.false_eq_true, if_false, hr] at h
  injection h with htup
  have hok : ok = b1 := (congrArg Prod.fst htup).symm
  have hout : out = b2 := (congrArg (fun x => x.2.1) htup).symm
  have hst2 : st2 = { st with pos := b3, scanned := true } :=
    (congrArg (fun x => x.2.2) htup).symm
  obtain ⟨mid, extra, hcons, ho, hstop, hoke⟩ :=
    ReadAllLoop_consumes parse st.buf st.size st.pos dest0 b1 b2 b3 hr
  subst hok
  subst hout
  subst hst2
  exact ⟨rfl, rfl, rfl, rfl, mid, extra, hcons, ho, hstop, hoke⟩

/-- Witness for C10 at an input that consumes one child and then fails: a
15 byte extent holding one well-formed child of declared size 12 followed
by 3 trailing bytes that cannot open a header. The call fails, yet the
reader comes back scanned, the parsed child follows the pre-existing
destination element in the output, and the cursor sits at byte 12, right
after the consumed child. -/
theorem ReadAllChildren_latch_and_prefix_witness :
    ReadAllChildren (fun r : ChildReader => some r.size) [9]
        ⟨[0, 0, 0, 12, 97, 98, 99, 100, 1, 2, 3, 4, 5, 6, 7], 0, 15, 0, [], false⟩ =
      .res (false, [9, 12],
        ⟨[0, 0, 0, 12, 97, 98, 99, 100, 1, 2, 3, 4, 5, 6, 7], 12, 15, 0, [], true⟩) ∧
    (⟨[0, 0, 0, 12, 97, 98, 99, 100, 1, 2, 3, 4, 5, 6, 7], 12, 15, 0, [], true⟩ :
      BoxReader).scanned = true ∧
    ConsumesTo (fun r : ChildReader => some r.size)
      [0, 0, 0, 12, 97, 98, 99, 100, 1, 2, 3, 4, 5, 6, 7] 15 0 [12] 12 ∧
    ([9, 12] : List Nat) = [9] ++ [12] ++ [] := by
  have hh1 : ReadHeader
      (([0, 0, 0, 12, 97, 98, 99, 100, 1, 2, 3, 4, 5, 6, 7].drop 0).take (15 - 0)) =
      .ok 0x61626364 12 8 := by decide
  have hp1 : (fun r : ChildReader => some r.size)
      ⟨([0, 0, 0, 12, 97, 98, 99, 100, 1, 2, 3, 4, 5, 6, 7].drop 0).take (15 - 0),
        8, 12, 0x61626364⟩ = some 12 := rfl
  have hstep := ReadAllLoop_step (fun r : ChildReader => some r.size)
    [0, 0, 0, 12, 97, 98, 99, 100, 1, 2, 3, 4, 5, 6, 7] 15 0 [9]
    0x61626364 12 8 12 (by decide) hh1 hp1 (by decide)
  have hinc := ReadAllLoop_incomplete (fun r : ChildReader => some r.size)
    [0, 0, 0, 12, 97, 98, 99, 100, 1, 2, 3, 4, 5, 6, 7] 15 (0 + 12) ([9] ++ [12])
    (by decide) (by decide)
  have hloop : ReadAllLoop (fun r : ChildReader => some r.size)
      [0, 0, 0, 12, 97, 98, 99, 100, 1, 2, 3, 4, 5, 6, 7] 15 0 [9] =
      (false, [9, 12], 12) := by
    rw [hstep]
    exact hinc
  have h : ReadAllChildren (fun r : ChildReader => some r.size) [9]
      ⟨[0, 0, 0, 12, 97, 98, 99, 100, 1, 2, 3, 4, 5, 6, 7], 0, 15, 0, [], false⟩ =
      .res (false, [9, 12],
        ⟨[0, 0, 0, 12, 97, 98, 99, 100, 1, 2, 3, 4, 5, 6, 7], 12, 15, 0, [], true⟩) := by
    simp [ReadAllChildren, hloop]
  have hmain := ReadAllChildren_latch_and_prefix
    (fun r : ChildReader => some r.size) [9]
    ⟨[0, 0, 0, 12, 97, 98, 99, 100, 1, 2, 3, 4, 5, 6, 7], 0, 15, 0, [], false⟩
    false [9, 12]
    ⟨[0, 0, 0, 12, 97, 98, 99, 100, 1, 2, 3, 4, 5, 6, 7], 12, 15, 0, [], true⟩ rfl h
  refine ⟨h, hmain.1, ?_, by decide⟩
  exact ConsumesTo.step (by decide) hh1 hp1 (by decide) (ConsumesTo.refl (0 + 12))

/-- C4 counterexample: extraction after ReadAllChildren is not rejected as
a contract violation. On an unscanned reader with an empty body,
ReadAllChildren succeeds and marks the reader scanned; a subsequent
TryReadChildren on the resulting state passes the scanned contract check
and returns an ordinary result rather than being rejected. -/
theorem extraction_after_ReadAllChildren_not_rejected :
    ReadAllChildren (fun r : ChildReader => some r.size) []
        ⟨[], 0, 0, 0, [], false⟩ =
      .res (true, [], ⟨[], 0, 0, 0, [], true⟩) ∧
    TryReadChildren (fun _ : Nat => 7) 0 (fun r : ChildReader => some r.size) []
        ⟨[], 0, 0, 0, [], true⟩ =
      .res ⟨true, [], ⟨[], 0, 0, 0, [], true⟩, []⟩ := by
  have hloop := ReadAllLoop_stop (fun r : ChildReader => some r.size) [] 0 0 []
    (by decide)
  constructor
  · simp [ReadAllChildren, hloop]
  · decide

/-- C4 (amended): the two scanning strategies are mutually exclusive and
the scanned latch is one-way: on a scanned reader both ScanChildren and
ReadAllChildren are rejected as contract violations; ScanChildren sets the
latch on success and ReadAllChildren sets it unconditionally; but the
extraction calls on a scanned reader (in particular on a reader scanned by
ReadAllChildren) pass the contract check and are not rejected. -/
theorem scan_modes_one_shot {T : Type} (boxType : T → FourCC) (default : T)
    (parse : ChildReader → Option T) (dest0 : List T) (st stU : BoxReader)
    (b : Bool) (stU2 : BoxReader) (r : Bool × List T × BoxReader)
    (hs : st.scanned = true) (hu : stU.scanned = false)
    (hscan : ScanChildren stU = .res (b, stU2))
    (hall : ReadAllChildren parse dest0 stU = .res r) :
    ScanChildren st = .violation ∧
    ReadAllChildren parse dest0 st = .violation ∧
    TryReadChildren boxType default parse [] st ≠ .violation ∧
    ReadChildren boxType default parse [] st ≠ .violation ∧
    r.2.2.scanned = true ∧
    (b = true → stU2.scanned = true) := by
  have htry : TryReadChildren boxType default parse [] st ≠ .violation := by
    unfold TryReadChildren
    simp only [hs, Bool.not_true, Bool.false_eq_true, if_false,
      List.isEmpty_nil, Bool.not_false, if_true]
    split <;> simp
  have hread : ReadChildren boxType default parse [] st ≠ .violation := by
    unfold ReadChildren
    cases htr : TryReadChildren boxType default parse [] st with
    | violation => exact absurd htr htry
    | res o => simp
  refine ⟨by simp [ScanChildren, hs], by simp [ReadAllChildren, hs],
    htry, hread, ?_, ?_⟩
  · rcases hr : ReadAllLoop parse stU.buf stU.size stU.pos dest0 with ⟨b1, b2, b3⟩
    simp only [ReadAllChildren, hu, Bool.false_eq_true, if_false, hr] at hall
    injection hall with htup
    have hst2 : r = (b1, b2, { stU with pos := b3, scanned := true }) := htup.symm
    rw [hst2]
  · intro hb1
    unfold ScanChildren at hscan
    rw [if_neg (by rw [hu]; exact Bool.false_ne_true)] at hscan
    cases hsl : ScanLoop stU.buf stU.size stU.pos [] with
    | some cs =>
      rw [hsl] at hscan
      injection hscan with htup
      have hst2 : stU2 =
          { stU with children := cs, pos := stU.size, scanned := true } :=
        (congrArg Prod.snd htup).symm
      rw [hst2]
    | none =>
      rw [hsl] at hscan
      injection hscan with htup
      have hbf : b = false := (congrArg Prod.fst htup).symm
      rw [hbf] at hb1
      cases hb1

/-- Witness for C4 at concrete readers: a scanned reader rejects both
scanning strategies while extraction on it is not rejected. -/
theorem scan_modes_one_shot_witness :
    ScanChildren ⟨[], 0, 0, 0, [], true⟩ = .violation ∧
    ReadAllChildren (fun r : ChildReader => some r.size) ([] : List Nat)
        ⟨[], 0, 0, 0, [], true⟩ = .violation ∧
    TryReadChildren (fun _ : Nat => 7) 0 (fun r : ChildReader => some r.size) []
        ⟨[], 0, 0, 0, [], true⟩ ≠ .violation := by
  have hsl := ScanLoop_stop [] 0 0 [] (by decide)
  have hscan : ScanChildren ⟨[], 0, 0, 0, [], false⟩ =
      .res (true, ⟨[], 0, 0, 0, [], true⟩) := by
    simp [ScanChildren, hsl]
  have hloop := ReadAllLoop_stop (fun r : ChildReader => some r.size) [] 0 0 []
    (by decide)
  have hall : ReadAllChildren (fun r : ChildReader => some r.size) []
      ⟨[], 0, 0, 0, [], false⟩ = .res (true, [], ⟨[], 0, 0, 0, [], true⟩) := by
    simp [ReadAllChildren, hloop]
  have hmain := scan_modes_one_shot (fun _ : Nat => 7) 0
    (fun r : ChildReader => some r.size) [] ⟨[], 0, 0, 0, [], true⟩
    ⟨[], 0, 0, 0, [], false⟩ true ⟨[], 0, 0, 0, [], true⟩
    (true, [], ⟨[], 0, 0, 0, [], true⟩) rfl rfl hscan hall
  exact ⟨hmain.1, hmain.2.1, hmain.2.2.1⟩
